import Mathlib

/-!
Verification of the rotonda-store query engine against its specification.

The development shallowly embeds the store's data model and the query
functions of `src/rib/starcast_af_query.rs`, the construction behaviour of
`src/local_array/store.rs`, and the `UpsertReport` consumers of
`src/bin/load_mrt.rs`.  Components of the store whose code is not part of
the sources (the tree-bitmap walk, the concurrent prefix hash table, the
persistence backend) are modelled from the specification; each such
definition says so in its doc comment.  Machine integers are modelled as
`Nat` (address bits fit in 32 bits and no arithmetic here overflows).
-/

namespace RotondaStore

/-- Route status of a record: `Active` or `Withdrawn`. -/
inductive RouteStatus where
  | Active : RouteStatus
  | Withdrawn : RouteStatus
deriving DecidableEq, Repr

/-- A prefix identifier: address bits (IPv4, 32-bit word modelled as `Nat`)
together with the prefix length. -/
structure PrefixId where
  bits : Nat
  len : Nat
deriving DecidableEq, Repr

/-- The IPv4 address-family bit width. -/
def afBits : Nat := 32

/-- `covers q p` holds when `q` is a (non-strict) covering prefix of `p`:
`q` is at most as long and the first `q.len` bits agree. -/
def covers (q p : PrefixId) : Bool :=
  decide (q.len ≤ p.len) &&
    decide (q.bits >>> (afBits - q.len) = p.bits >>> (afBits - q.len))

/-- A record stored under a prefix: producer id (MUI), logical time,
status and metadata.  The metadata type parameter of the store is
instantiated with `Nat`, ordered by value, mirroring the `PrefixAs`
example metadata whose `as_orderable` hook returns the contained number. -/
structure Record where
  multi_uniq_id : Nat
  ltime : Nat
  status : RouteStatus
  meta : Nat
deriving DecidableEq, Repr

/-- One entry of the concurrent prefix hash table: the record list
(at most one record per MUI) and the per-prefix withdrawn-MUI set. -/
structure PrefixEntry where
  pfx : PrefixId
  records : List Record
  withdrawnMuis : List Nat
deriving DecidableEq, Repr

/-- Persistence strategies of the store configuration. -/
inductive PersistStrategy where
  | MemoryOnly : PersistStrategy
  | WriteAhead : PersistStrategy
  | PersistOnly : PersistStrategy
  | PersistHistory : PersistStrategy
deriving DecidableEq, Repr

/-- The store state visible to the query engine: the prefix entries (the
tree bitmap publishes exactly the prefixes holding an entry), the global
withdrawn-MUI set, the persistence strategy, and the optional persisted
tree.  A persisted value is a blob that decodes to a record, or `none`
for an undecodable blob. -/
structure StarCastAfRib where
  entries : List PrefixEntry
  withdrawnMuisBmin : List Nat
  persistStrategy : PersistStrategy
  persistTree : Option (List (PrefixId × List (Option Record)))
deriving DecidableEq, Repr

/-- The fatal error of the store (persistence decode failure). -/
inductive FatalError where
  | fatal : FatalError
deriving DecidableEq, Repr

/-- Errors produced by the store. -/
inductive PrefixStoreError where
  | StoreNotReadyError : PrefixStoreError
  | BestPathNotFound : PrefixStoreError
  | PrefixLengthInvalid : PrefixStoreError
deriving DecidableEq, Repr

/-- Match types of a query result. -/
inductive MatchType where
  | ExactMatch : MatchType
  | LongestMatch : MatchType
  | EmptyMatch : MatchType
deriving DecidableEq, Repr

/-- Query options, mirroring `MatchOptions`. -/
structure MatchOptions where
  match_type : MatchType
  include_withdrawn : Bool
  include_less_specifics : Bool
  include_more_specifics : Bool
  mui : Option Nat
deriving DecidableEq, Repr

/-- The effective status of a record under the three withdrawal layers:
its own status, the per-prefix withdrawn-MUI set and the global
withdrawn-MUI set. -/
def effectiveStatus (globalW perW : List Nat) (r : Record) : RouteStatus :=
  if r.status = RouteStatus.Withdrawn ∨ r.multi_uniq_id ∈ perW ∨
      r.multi_uniq_id ∈ globalW
  then RouteStatus.Withdrawn else RouteStatus.Active

/-- A record as returned by a read: its status rewritten to the effective
status (withdrawal is overlaid at read time, stored state is unchanged). -/
def rewriteStatus (globalW perW : List Nat) (r : Record) : Record :=
  { r with status := effectiveStatus globalW perW r }

/-- Does the record pass the MUI filter of the options? -/
def muiMatches (mui : Option Nat) (r : Record) : Bool :=
  match mui with
  | none => true
  | some m => decide (r.multi_uniq_id = m)

/-- Does the (status-rewritten) record pass the withdrawal filter? -/
def keepRecord (includeWithdrawn : Bool) (r : Record) : Bool :=
  includeWithdrawn || decide (r.status = RouteStatus.Active)

/-- Filter a record list by the MUI option and the withdrawal option,
rewriting each status to the effective status first. -/
def filterRecords (mui : Option Nat) (includeWithdrawn : Bool)
    (globalW perW : List Nat) (rs : List Record) : List Record :=
  (rs.map (rewriteStatus globalW perW)).filter
    (fun r => muiMatches mui r && keepRecord includeWithdrawn r)

/-- Look up the entry of a prefix in the entry list. -/
def findEntry : List PrefixEntry → PrefixId → Option PrefixEntry
  | [], _ => none
  | e :: es, p => if e.pfx = p then some e else findEntry es p

/-- Modelled from the spec: `get_records_for_prefix` of the concurrent
prefix hash table (spec 4.5, 4.7), whose code is not among the sources.
It returns the filtered record list of a stored prefix; a prefix that is
absent, or whose filter yields no records, behaves as absent (spec 4.7
step 4 drops entries whose filter yields no records, and the tests
`tests/treebitmap.rs` observe exactly that). -/
def getRecordsForPrefix (entries : List PrefixEntry) (globalW : List Nat)
    (pfx : PrefixId) (mui : Option Nat) (includeWithdrawn : Bool) :
    Option (List Record) :=
  match findEntry entries pfx with
  | none => none
  | some e =>
    let v := filterRecords mui includeWithdrawn globalW e.withdrawnMuis
      e.records
    if v.isEmpty then none else some v

/-- Look up the blob list of a prefix in the persisted tree. -/
def findPersist : List (PrefixId × List (Option Record)) → PrefixId →
    Option (List (Option Record))
  | [], _ => none
  | e :: es, p => if e.1 = p then some e.2 else findPersist es p

/-- Modelled from the spec: `records_for_prefix` of the persistence
backend (spec 4.9, 6), whose code is not among the sources.  It returns
the blobs stored for the prefix, filtered by MUI and withdrawal state
(only the global layer is available to it); an undecodable blob cannot be
inspected and passes the filter. -/
def recordsForPrefixPersist (tree : List (PrefixId × List (Option Record)))
    (globalW : List Nat) (pfx : PrefixId) (mui : Option Nat)
    (includeWithdrawn : Bool) : Option (List (Option Record)) :=
  (findPersist tree pfx).map (fun blobs =>
    blobs.filter (fun b =>
      match b with
      | none => true
      | some r =>
        muiMatches mui r &&
          (includeWithdrawn ||
            decide (effectiveStatus globalW [] r = RouteStatus.Active))))

/-- Decode a list of persisted blobs; any undecodable blob is a fatal
error, as in the `PersistOnly` arm of `get_value`. -/
def decodeAll : List (Option Record) → Except FatalError (List Record)
  | [] => Except.ok []
  | b :: bs =>
    match b with
    | none => Except.error FatalError.fatal
    | some r => (decodeAll bs).map (fun rs => r :: rs)

/-- `get_value` of `starcast_af_query.rs`: fetch the filtered records of
one prefix, from the persisted tree under `PersistOnly` and from the
prefix hash table otherwise. -/
def getValue (s : StarCastAfRib) (pfx : PrefixId) (mui : Option Nat)
    (includeWithdrawn : Bool) : Except FatalError (Option (List Record)) :=
  if s.persistStrategy = PersistStrategy.PersistOnly then
    match s.persistTree with
    | none => Except.ok none
    | some tree =>
      match recordsForPrefixPersist tree s.withdrawnMuisBmin pfx mui
          includeWithdrawn with
      | none => Except.ok none
      | some blobs => (decodeAll blobs).map some
  else
    Except.ok (getRecordsForPrefix s.entries s.withdrawnMuisBmin pfx mui
      includeWithdrawn)

/-- The prefixes published by the tree bitmap: exactly the prefixes
holding a hash-table entry (spec 3, bitmap/slot invariant). -/
def storedPrefixes (entries : List PrefixEntry) : List PrefixId :=
  entries.map (fun e => e.pfx)

/-- Modelled from the spec: the less-specific prefixes of `q` among the
stored prefixes (spec 4.4), strictly shorter covering prefixes. -/
def lessSpecificKeys (entries : List PrefixEntry) (q : PrefixId) :
    List PrefixId :=
  (storedPrefixes entries).filter
    (fun p => covers p q && decide (p.len < q.len))

/-- Modelled from the spec: the more-specific prefixes of `q` among the
stored prefixes (spec 4.4), strictly longer prefixes that `q` covers. -/
def moreSpecificKeys (entries : List PrefixEntry) (q : PrefixId) :
    List PrefixId :=
  (storedPrefixes entries).filter
    (fun p => covers q p && decide (q.len < p.len))

/-- The longest stored covering prefix of `q` (the deepest remembered
candidate of the longest-prefix-match walk, spec 4.3). -/
def longestCovering (entries : List PrefixEntry) (q : PrefixId) :
    Option PrefixId :=
  (lessSpecificKeys entries q).foldl
    (fun acc p =>
      match acc with
      | none => some p
      | some b => if b.len < p.len then some p else some b)
    none

/-- The result of the tree-bitmap walk, mirroring `TreeQueryResult`. -/
structure TreeQueryResult where
  match_type : MatchType
  pfx : Option PrefixId
  less_specifics : Option (List PrefixId)
  more_specifics : Option (List PrefixId)
deriving DecidableEq, Repr

/-- Modelled from the spec: the tree-bitmap walk `match_prefix`
(spec 4.3, 4.4), whose code is not among the sources.  An exact hit is an
`ExactMatch`; otherwise, unless an exact match was demanded, the longest
covering stored prefix is a `LongestMatch`; otherwise the walk reports
`EmptyMatch`.  The side lists are produced when the options ask for
them. -/
def treeMatchPrefix (entries : List PrefixEntry) (q : PrefixId)
    (o : MatchOptions) : TreeQueryResult :=
  let mp : MatchType × Option PrefixId :=
    if (findEntry entries q).isSome then (MatchType.ExactMatch, some q)
    else
      match o.match_type with
      | MatchType.ExactMatch => (MatchType.EmptyMatch, none)
      | _ =>
        match longestCovering entries q with
        | some p => (MatchType.LongestMatch, some p)
        | none => (MatchType.EmptyMatch, none)
  { match_type := mp.1
    pfx := mp.2
    less_specifics :=
      if o.include_less_specifics then some (lessSpecificKeys entries q)
      else none
    more_specifics :=
      if o.include_more_specifics then some (moreSpecificKeys entries q)
      else none }

/-- A query result, mirroring `QueryResult`: the matched prefix with its
records and the optional side lists carrying record lists. -/
structure QueryResult where
  match_type : MatchType
  pfx : Option PrefixId
  records : List Record
  less_specifics : Option (List (PrefixId × List Record))
  more_specifics : Option (List (PrefixId × List Record))
deriving DecidableEq, Repr

/-- `QueryResult::from(TreeQueryResult)`: empty record lists are attached
to the matched prefix and to every side prefix. -/
def queryResultFromTree (t : TreeQueryResult) : QueryResult :=
  { match_type := t.match_type
    pfx := t.pfx
    records := []
    less_specifics :=
      t.less_specifics.map (List.map (fun p => (p, ([] : List Record))))
    more_specifics :=
      t.more_specifics.map (List.map (fun p => (p, ([] : List Record)))) }

/-- The first phase of `match_prefix`: fetch the matched prefix's records;
when the fetch fails, yields nothing, or yields an empty list, the match
type is downgraded to `EmptyMatch` and the prefix is cleared. -/
def stepOne (s : StarCastAfRib) (o : MatchOptions) (t : TreeQueryResult) :
    QueryResult :=
  let base := queryResultFromTree t
  match t.pfx with
  | none => { base with pfx := none, match_type := MatchType.EmptyMatch }
  | some p =>
    match getValue s p o.mui o.include_withdrawn with
    | Except.ok (some v) =>
      if v.isEmpty then
        { base with pfx := none, match_type := MatchType.EmptyMatch }
      else { base with records := v }
    | _ => { base with pfx := none, match_type := MatchType.EmptyMatch }

/-- The side-list refresh of `match_prefix`: each side prefix is refetched
with the query options; entries yielding no records are dropped, a fatal
fetch error aborts the collection. -/
def collectSide (s : StarCastAfRib) (mui : Option Nat)
    (includeWithdrawn : Bool) :
    List (PrefixId × List Record) →
      Except FatalError (List (PrefixId × List Record))
  | [] => Except.ok []
  | pr :: ps =>
    match getValue s pr.1 mui includeWithdrawn with
    | Except.error _ => Except.error FatalError.fatal
    | Except.ok none => collectSide s mui includeWithdrawn ps
    | Except.ok (some v) =>
      (collectSide s mui includeWithdrawn ps).map
        (fun rest => (pr.1, v) :: rest)

/-- Refresh one optional side list when the corresponding option is set,
as in the two side blocks of `match_prefix`. -/
def sideOption (s : StarCastAfRib) (mui : Option Nat)
    (includeWithdrawn : Bool) (flag : Bool)
    (cur : Option (List (PrefixId × List Record))) :
    Except FatalError (Option (List (PrefixId × List Record))) :=
  if flag then
    match cur with
    | none => Except.ok none
    | some l => (collectSide s mui includeWithdrawn l).map some
  else Except.ok cur

/-- Apply both side blocks of `match_prefix` to a query result. -/
def applySides (s : StarCastAfRib) (o : MatchOptions) (res : QueryResult) :
    Except FatalError QueryResult :=
  match sideOption s o.mui o.include_withdrawn o.include_more_specifics
      res.more_specifics with
  | Except.error e => Except.error e
  | Except.ok ms =>
    match sideOption s o.mui o.include_withdrawn o.include_less_specifics
        res.less_specifics with
    | Except.error e => Except.error e
    | Except.ok ls =>
      Except.ok { res with more_specifics := ms, less_specifics := ls }

/-- `match_prefix` of `starcast_af_query.rs`: tree walk, record fetch for
the matched prefix, then the two side blocks. -/
def matchPrefix (s : StarCastAfRib) (q : PrefixId) (o : MatchOptions) :
    Except FatalError QueryResult :=
  applySides s o (stepOne s o (treeMatchPrefix s.entries q o))

/-- The report returned by an upsert, mirroring `UpsertReport`. -/
structure UpsertReport where
  prefix_new : Bool
  mui_new : Bool
  cas_count : Nat
deriving DecidableEq, Repr

/-- Replace the record of the same MUI, or append the record
(MUI is the identity key of the record list). -/
def upsertRecord (rs : List Record) (r : Record) : List Record :=
  if rs.any (fun x => decide (x.multi_uniq_id = r.multi_uniq_id)) then
    rs.map (fun x =>
      if x.multi_uniq_id = r.multi_uniq_id then r else x)
  else rs ++ [r]

/-- Modelled from the spec: `upsert` of the concurrent prefix hash table
(spec 4.5), whose code is not among the sources.  `prefix_new` is true
iff the prefix key was absent, `mui_new` is true iff the MUI did not
exist under the prefix; a fresh prefix entry starts with an empty
per-prefix withdrawn set. -/
def upsertEntries : List PrefixEntry → PrefixId → Record →
    List PrefixEntry × UpsertReport
  | [], p, r =>
    ([{ pfx := p, records := [r], withdrawnMuis := [] }],
      { prefix_new := true, mui_new := true, cas_count := 0 })
  | e :: es, p, r =>
    if e.pfx = p then
      ({ e with records := upsertRecord e.records r } :: es,
        { prefix_new := false
          mui_new :=
            !(e.records.any (fun x =>
                decide (x.multi_uniq_id = r.multi_uniq_id)))
          cas_count := 0 })
    else
      let res := upsertEntries es p r
      (e :: res.1, res.2)

/-- `insert`: upsert the record under the prefix and return the new store
state with the upsert report. -/
def insert (s : StarCastAfRib) (p : PrefixId) (r : Record) :
    StarCastAfRib × UpsertReport :=
  let res := upsertEntries s.entries p r
  ({ s with entries := res.1 }, res.2)

/-- `mark_mui_as_withdrawn_v4`: add the MUI to the global withdrawn set. -/
def markMuiAsWithdrawnV4 (s : StarCastAfRib) (m : Nat) : StarCastAfRib :=
  { s with withdrawnMuisBmin := m :: s.withdrawnMuisBmin }

/-- `mark_mui_as_active_v4`: remove the MUI from the global withdrawn
set. -/
def markMuiAsActiveV4 (s : StarCastAfRib) (m : Nat) : StarCastAfRib :=
  { s with withdrawnMuisBmin :=
      s.withdrawnMuisBmin.filter (fun x => decide (x ≠ m)) }

/-- `mark_mui_as_withdrawn_for_prefix`: add the MUI to the per-prefix
withdrawn set of the prefix's entry. -/
def markMuiAsWithdrawnForPrefix (s : StarCastAfRib) (p : PrefixId)
    (m : Nat) : StarCastAfRib :=
  { s with entries := s.entries.map (fun e =>
      if e.pfx = p then { e with withdrawnMuis := m :: e.withdrawnMuis }
      else e) }

/-- `mark_mui_as_active_for_prefix`: remove the MUI from the per-prefix
withdrawn set of the prefix's entry. -/
def markMuiAsActiveForPrefix (s : StarCastAfRib) (p : PrefixId) (m : Nat) :
    StarCastAfRib :=
  { s with entries := s.entries.map (fun e =>
      if e.pfx = p then
        { e with withdrawnMuis :=
            e.withdrawnMuis.filter (fun x => decide (x ≠ m)) }
      else e) }

/-- The empty memory-only store. -/
def emptyRib : StarCastAfRib :=
  { entries := []
    withdrawnMuisBmin := []
    persistStrategy := PersistStrategy.MemoryOnly
    persistTree := none }

/-- Build a store by inserting a list of (prefix, record) pairs into the
empty memory-only store. -/
def mkStore (l : List (PrefixId × Record)) : StarCastAfRib :=
  l.foldl (fun s pr => (insert s pr.1 pr.2).1) emptyRib

/-- Strict order on records used by best-path selection: by the orderable
metadata first, then by MUI ascending. -/
def keyLt (a b : Record) : Bool :=
  decide (a.meta < b.meta) ||
    (decide (a.meta = b.meta) && decide (a.multi_uniq_id < b.multi_uniq_id))

/-- Reflexive order on records: by the orderable metadata first, then by
MUI ascending. -/
def keyLe (a b : Record) : Bool :=
  decide (a.meta < b.meta) ||
    (decide (a.meta = b.meta) && decide (a.multi_uniq_id ≤ b.multi_uniq_id))

/-- The minimum of a record list under `keyLt`. -/
def minRecord : List Record → Option Record
  | [] => none
  | r :: rs =>
    match minRecord rs with
    | none => some r
    | some b => if keyLt b r then some b else some r

/-- The visible-active records of an entry: those withdrawn by none of
the three layers (spec 4.8). -/
def visibleActive (globalW : List Nat) (e : PrefixEntry) : List Record :=
  e.records.filter (fun r =>
    decide (effectiveStatus globalW e.withdrawnMuis r = RouteStatus.Active))

/-- Modelled from the spec: `calculate_and_store_best_backup` (spec 4.6),
whose code is not among the sources.  The best MUI minimises the
orderable metadata with ties broken by MUI ascending among the
visible-active records; the backup is the next best. -/
def bestAndBackup (globalW : List Nat) (e : PrefixEntry) :
    Option Nat × Option Nat :=
  let va := visibleActive globalW e
  match minRecord va with
  | none => (none, none)
  | some b =>
    (some b.multi_uniq_id,
      (minRecord (va.filter (fun r =>
        !decide (r.multi_uniq_id = b.multi_uniq_id)))).map
        (fun r => r.multi_uniq_id))

/-- Find the record of a MUI in a record list. -/
def findRecord : List Record → Nat → Option Record
  | [], _ => none
  | r :: rs, m => if r.multi_uniq_id = m then some r else findRecord rs m

/-- Modelled from the spec: `get_record_for_mui` of the record map
(spec 4.5), whose code is not among the sources: the record of the MUI,
status rewritten, and suppressed when withdrawn unless asked for. -/
def getRecordForMui (globalW : List Nat) (e : PrefixEntry) (m : Nat)
    (includeWithdrawn : Bool) : Option Record :=
  match findRecord e.records m with
  | none => none
  | some r =>
    if includeWithdrawn ||
        decide (effectiveStatus globalW e.withdrawnMuis r =
          RouteStatus.Active) then
      some (rewriteStatus globalW e.withdrawnMuis r)
    else none

/-- `best_path` of `starcast_af_query.rs`: `none` when the prefix has no
entry; otherwise the record of the best MUI, `BestPathNotFound` when no
best exists, `StoreNotReadyError` when the best MUI has no record. -/
def bestPath (s : StarCastAfRib) (pfx : PrefixId) :
    Option (Except PrefixStoreError Record) :=
  (findEntry s.entries pfx).map (fun e =>
    match (bestAndBackup s.withdrawnMuisBmin e).1 with
    | none => Except.error PrefixStoreError.BestPathNotFound
    | some m =>
      match getRecordForMui s.withdrawnMuisBmin e m false with
      | none => Except.error PrefixStoreError.StoreNotReadyError
      | some r => Except.ok r)

/-- Modelled from the spec: `contains` of the store, whose code is not
among the sources: is the prefix present (with a record for the MUI when
one is requested)? -/
def ribContains (s : StarCastAfRib) (pfx : PrefixId) (mui : Option Nat) :
    Bool :=
  match findEntry s.entries pfx with
  | none => false
  | some e =>
    match mui with
    | none => true
    | some m => e.records.any (fun r => decide (r.multi_uniq_id = m))

/-- The collection used by `more_specifics_from` and
`less_specifics_from`: for each side prefix `p` the SEARCH prefix's
records are fetched (the source passes `prefix_id`, not `p`, to
`get_value`); a fatal error aborts, and a fetch yielding nothing
collapses the whole collection to `none` (`collect` into
`FatalResult<Option<RecordSet>>`). -/
def collectFromSearch (s : StarCastAfRib) (searchPfx : PrefixId)
    (mui : Option Nat) (includeWithdrawn : Bool) :
    List PrefixId →
      Except FatalError (Option (List (PrefixId × List Record)))
  | [] => Except.ok (some [])
  | p :: ps =>
    match getValue s searchPfx mui includeWithdrawn with
    | Except.error _ => Except.error FatalError.fatal
    | Except.ok none => Except.ok none
    | Except.ok (some v) =>
      (collectFromSearch s searchPfx mui includeWithdrawn ps).map
        (Option.map (fun rest => (p, v) :: rest))

/-- `more_specifics_from` of `starcast_af_query.rs`, translated as
written: the reported prefix is set only when the store does NOT contain
it, the result records are the search prefix's own, and every side
prefix is paired with a fetch for the search prefix. -/
def moreSpecificsFrom (s : StarCastAfRib) (pfxId : PrefixId)
    (mui : Option Nat) (includeWithdrawn : Bool) :
    Except FatalError QueryResult :=
  let reported : Option PrefixId :=
    if !(ribContains s pfxId mui) then some pfxId else none
  match getValue s pfxId mui includeWithdrawn with
  | Except.error _ => Except.error FatalError.fatal
  | Except.ok v0 =>
    match collectFromSearch s pfxId mui includeWithdrawn
        (moreSpecificKeys s.entries pfxId) with
    | Except.error _ => Except.error FatalError.fatal
    | Except.ok ms =>
      Except.ok
        { match_type := MatchType.EmptyMatch
          pfx := reported
          records := v0.getD []
          less_specifics := none
          more_specifics := ms }

/-- `less_specifics_from` of `starcast_af_query.rs`, translated as
written (same shape as `more_specifics_from`, on the less-specific
keys). -/
def lessSpecificsFrom (s : StarCastAfRib) (pfxId : PrefixId)
    (mui : Option Nat) (includeWithdrawn : Bool) :
    Except FatalError QueryResult :=
  let reported : Option PrefixId :=
    if !(ribContains s pfxId mui) then some pfxId else none
  match getValue s pfxId mui includeWithdrawn with
  | Except.error _ => Except.error FatalError.fatal
  | Except.ok v0 =>
    match collectFromSearch s pfxId mui includeWithdrawn
        (lessSpecificKeys s.entries pfxId) with
    | Except.error _ => Except.error FatalError.fatal
    | Except.ok ls =>
      Except.ok
        { match_type := MatchType.EmptyMatch
          pfx := reported
          records := v0.getD []
          less_specifics := ls
          more_specifics := none }

/-- Is the MUI in the global withdrawn set (`mui_is_withdrawn`)? -/
def muiIsWithdrawn (s : StarCastAfRib) (m : Nat) : Bool :=
  s.withdrawnMuisBmin.contains m

/-- `more_specifics_iter_from` of `starcast_af_query.rs`: when a specific
MUI is requested without withdrawn records and that MUI is globally
withdrawn, the iterator is empty without consulting the trie; otherwise
each more-specific prefix with surviving records is yielded, fetch
errors appearing as error items. -/
def moreSpecificsIterFrom (s : StarCastAfRib) (pfxId : PrefixId)
    (mui : Option Nat) (includeWithdrawn : Bool) :
    List (Except FatalError (PrefixId × List Record)) :=
  if (match mui with
      | some m => !includeWithdrawn && muiIsWithdrawn s m
      | none => false) then []
  else
    (moreSpecificKeys s.entries pfxId).filterMap (fun p =>
      match getValue s p mui includeWithdrawn with
      | Except.error _ => some (Except.error FatalError.fatal)
      | Except.ok none => none
      | Except.ok (some v) => some (Except.ok (p, v)))

/-- The counters updated per upsert report in `load_mrt.rs`. -/
structure UpsertCounters where
  unique_prefixes : Nat
  unique_routes : Nat
  persisted_routes : Nat
  total_routes : Nat
deriving DecidableEq, Repr

/-- `counter_update` of `load_mrt.rs`: the `(prefix_new, mui_new)`
combination `(true, false)` hits the panicking arm, modelled as `none`. -/
def counterUpdate (c : UpsertCounters) (r : UpsertReport) :
    Option UpsertCounters :=
  match r.prefix_new, r.mui_new with
  | true, true =>
    some { c with
      unique_prefixes := c.unique_prefixes + 1
      unique_routes := c.unique_routes + 1
      total_routes := c.total_routes + 1 }
  | false, true =>
    some { c with
      unique_routes := c.unique_routes + 1
      total_routes := c.total_routes + 1 }
  | false, false => some { c with total_routes := c.total_routes + 1 }
  | true, false => none

/-- Take stride sizes from a list until the remaining bit budget is
exhausted. -/
def takeToFill : Nat → List Nat → List Nat
  | _, [] => []
  | rem, sz :: rest =>
    if rem = 0 then [] else sz :: takeToFill (rem - sz) rest

/-- Modelled from the spec and the doc comment of `Store::new`
(`local_array/store.rs`): `TreeBitMap::new` is not among the sources; per
its caller's documentation, stride sizes in the array are repeated if
their sum falls short of the number of bits of the address family.  The
construction yields the expanded stride sequence when it tiles the bit
width exactly. -/
def treeBitmapNew (strides : List Nat) (bits : Nat) : Option (List Nat) :=
  let expanded :=
    takeToFill bits (List.flatten (List.replicate bits strides))
  if expanded.sum = bits then some expanded else none

/-- Build an IPv4 prefix from dotted-quad components and a length. -/
def mkPfx (a b c d len : Nat) : PrefixId :=
  { bits := ((a * 256 + b) * 256 + c) * 256 + d, len := len }

/-- The metadata record used by the `more-more-specifics` test
(`PrefixAs(666)`, MUI 0, active). -/
def rec666 : Record :=
  { multi_uniq_id := 0, ltime := 0, status := RouteStatus.Active
    meta := 666 }

/-- The fourteen prefixes of `test_more_specifics_without_less_specifics`,
in insertion order. -/
def c7pfxs : List PrefixId :=
  [ mkPfx 17 0 64 0 18, mkPfx 17 0 109 0 24, mkPfx 17 0 153 0 24,
    mkPfx 17 0 0 0 21, mkPfx 17 0 176 0 20, mkPfx 17 0 0 0 8,
    mkPfx 17 0 184 0 23, mkPfx 17 0 71 0 24, mkPfx 17 0 0 0 9,
    mkPfx 17 0 117 0 24, mkPfx 17 0 99 0 24, mkPfx 17 0 224 0 24,
    mkPfx 17 0 128 0 18, mkPfx 17 0 120 0 24 ]

/-- The store of `test_more_specifics_without_less_specifics`. -/
def c7store : StarCastAfRib :=
  mkStore (c7pfxs.map (fun p => (p, rec666)))

/-- The twelve more-specific prefixes the test expects for `17.0.0.0/9`
(test indices 0, 1, 2, 3, 4, 6, 7, 9, 10, 11, 12, 13). -/
def c7expected : List PrefixId :=
  [ mkPfx 17 0 64 0 18, mkPfx 17 0 109 0 24, mkPfx 17 0 153 0 24,
    mkPfx 17 0 0 0 21, mkPfx 17 0 176 0 20, mkPfx 17 0 184 0 23,
    mkPfx 17 0 71 0 24, mkPfx 17 0 117 0 24, mkPfx 17 0 99 0 24,
    mkPfx 17 0 224 0 24, mkPfx 17 0 128 0 18, mkPfx 17 0 120 0 24 ]

/-- Exact-match query options asking for more specifics. -/
def c7opts : MatchOptions :=
  { match_type := MatchType.ExactMatch, include_withdrawn := false
    include_less_specifics := false, include_more_specifics := true
    mui := none }

/-- An active record with the given MUI and zero metadata. -/
def rec4 (m : Nat) : Record :=
  { multi_uniq_id := m, ltime := 0, status := RouteStatus.Active
    meta := 0 }

/-- The prefix `1.0.0.0/16` of the withdrawal scenario. -/
def p16 : PrefixId := mkPfx 1 0 0 0 16

/-- The prefix `1.0.0.0/17` of the withdrawal scenario. -/
def p17 : PrefixId := mkPfx 1 0 0 0 17

/-- The store of scenario S3: `1.0.0.0/16` inserted for MUIs 1 to 5, then
MUI 1 withdrawn globally. -/
def c4store : StarCastAfRib :=
  markMuiAsWithdrawnV4
    (mkStore ([1, 2, 3, 4, 5].map (fun m => (p16, rec4 m)))) 1

/-- Longest-match query options including withdrawn records. -/
def lpmT : MatchOptions :=
  { match_type := MatchType.LongestMatch, include_withdrawn := true
    include_less_specifics := false, include_more_specifics := false
    mui := none }

/-- Longest-match query options excluding withdrawn records. -/
def lpmF : MatchOptions := { lpmT with include_withdrawn := false }

/-- A record for MUI 1 with metadata 11, stored under `1.0.0.0/16`. -/
def recA : Record :=
  { multi_uniq_id := 1, ltime := 0, status := RouteStatus.Active
    meta := 11 }

/-- A record for MUI 1 with metadata 22, stored under `1.0.0.0/17`. -/
def recB : Record :=
  { multi_uniq_id := 1, ltime := 0, status := RouteStatus.Active
    meta := 22 }

/-- A two-prefix store whose `/16` and `/17` carry different records. -/
def c2store : StarCastAfRib := mkStore [(p16, recA), (p17, recB)]

/-- A store whose only prefix has its only MUI withdrawn per-prefix, so
that the visible record set of `1.0.0.0/16` is empty. -/
def c3store : StarCastAfRib :=
  markMuiAsWithdrawnForPrefix (mkStore [(p16, rec4 1)]) p16 1

/-- An entry with three active records: MUI 2 and MUI 1 share the best
metadata 5 while MUI 3 has metadata 4. -/
def c5e : PrefixEntry :=
  { pfx := p16
    records :=
      [ { multi_uniq_id := 2, ltime := 0, status := RouteStatus.Active
          meta := 5 },
        { multi_uniq_id := 1, ltime := 0, status := RouteStatus.Active
          meta := 5 },
        { multi_uniq_id := 3, ltime := 0, status := RouteStatus.Active
          meta := 4 } ]
    withdrawnMuis := [] }

/-- A store holding only the entry `c5e`. -/
def c5store : StarCastAfRib := { emptyRib with entries := [c5e] }

/-- A persist-only store whose persisted blob for `1.0.0.0/16` is
undecodable. -/
def c9store : StarCastAfRib :=
  { entries := [{ pfx := p16, records := [], withdrawnMuis := [] }]
    withdrawnMuisBmin := []
    persistStrategy := PersistStrategy.PersistOnly
    persistTree := some [(p16, [none])] }

/-- Longest-match options with no side lists. -/
def c9opts : MatchOptions :=
  { match_type := MatchType.LongestMatch, include_withdrawn := false
    include_less_specifics := false, include_more_specifics := false
    mui := none }

/-- A persist-only store where the blob of the more-specific `1.0.0.0/17`
is undecodable while `1.0.0.0/16` decodes fine. -/
def c9store2 : StarCastAfRib :=
  { entries :=
      [ { pfx := p16, records := [], withdrawnMuis := [] },
        { pfx := p17, records := [], withdrawnMuis := [] } ]
    withdrawnMuisBmin := []
    persistStrategy := PersistStrategy.PersistOnly
    persistTree := some [(p16, [some recA]), (p17, [none])] }

/-- Longest-match options asking for more specifics. -/
def c9optsMs : MatchOptions :=
  { c9opts with include_more_specifics := true }

/-- MUI uniqueness of a record list: at most one record per MUI. -/
def muiUnique (rs : List Record) : Prop :=
  ∀ r1 ∈ rs, ∀ r2 ∈ rs, r1.multi_uniq_id = r2.multi_uniq_id → r1 = r2

/-- The single entry of `c4store`: `1.0.0.0/16` with records for MUIs 1
to 5 and an empty per-prefix withdrawn set. -/
def c4entry : PrefixEntry :=
  { pfx := p16
    records := [rec4 1, rec4 2, rec4 3, rec4 4, rec4 5]
    withdrawnMuis := [] }

/-- The result of the LPM query on `c4store` including withdrawn
records: all five records, the one of MUI 1 reported withdrawn. -/
def c4resT : QueryResult :=
  { match_type := MatchType.ExactMatch
    pfx := some p16
    records :=
      [ { multi_uniq_id := 1, ltime := 0, status := RouteStatus.Withdrawn
          meta := 0 },
        rec4 2, rec4 3, rec4 4, rec4 5 ]
    less_specifics := none
    more_specifics := none }

/-- The result of the LPM query on `c4store` without withdrawn records:
the four records of MUIs 2 to 5. -/
def c4resF : QueryResult :=
  { match_type := MatchType.ExactMatch
    pfx := some p16
    records := [rec4 2, rec4 3, rec4 4, rec4 5]
    less_specifics := none
    more_specifics := none }

/-- The best record of `c5e`: the one of MUI 3 with the smallest
metadata. -/
def c5best : Record :=
  { multi_uniq_id := 3, ltime := 0, status := RouteStatus.Active
    meta := 4 }

theorem keyLe_refl (a : Record) : keyLe a a = true := by
  simp [keyLe]

theorem keyLe_of_keyLt (a b : Record) (h : keyLt a b = true) :
    keyLe a b = true := by
  simp only [keyLt, Bool.or_eq_true, Bool.and_eq_true, decide_eq_true_eq]
    at h
  simp only [keyLe, Bool.or_eq_true, Bool.and_eq_true, decide_eq_true_eq]
  omega

theorem keyLe_of_not_keyLt (a b : Record) (h : keyLt a b = false) :
    keyLe b a = true := by
  simp only [keyLt, Bool.or_eq_false_iff, Bool.and_eq_false_iff,
    decide_eq_false_iff_not] at h
  simp only [keyLe, Bool.or_eq_true, Bool.and_eq_true, decide_eq_true_eq]
  rcases h with ⟨h1, h2⟩
  rcases h2 with h2 | h2 <;> omega

theorem keyLe_trans (a b c : Record) (h1 : keyLe a b = true)
    (h2 : keyLe b c = true) : keyLe a c = true := by
  simp only [keyLe, Bool.or_eq_true, Bool.and_eq_true, decide_eq_true_eq]
    at h1 h2 ⊢
  omega

theorem minRecord_ne_none (r : Record) (rs : List Record) :
    minRecord (r :: rs) ≠ none := by
  cases h : minRecord rs with
  | none => simp [minRecord, h]
  | some b =>
    simp only [minRecord, h]
    split <;> simp

theorem minRecord_spec : ∀ (l : List Record) (b : Record),
    minRecord l = some b → b ∈ l ∧ ∀ r ∈ l, keyLe b r = true := by
  intro l
  induction l with
  | nil => intro b h; simp [minRecord] at h
  | cons r rs ih =>
    intro b h
    simp only [minRecord] at h
    cases hm : minRecord rs with
    | none =>
      simp only [hm] at h
      injection h with h
      subst h
      have hrs : rs = [] := by
        cases rs with
        | nil => rfl
        | cons a as => exact absurd hm (minRecord_ne_none a as)
      subst hrs
      refine ⟨by simp, ?_⟩
      intro x hx
      simp only [List.mem_singleton] at hx
      subst hx
      exact keyLe_refl _
    | some m =>
      simp only [hm] at h
      obtain ⟨hmem, hmin⟩ := ih m hm
      by_cases hlt : keyLt m r = true
      · rw [if_pos hlt] at h
        injection h with h
        subst h
        refine ⟨List.mem_cons_of_mem _ hmem, ?_⟩
        intro x hx
        rcases List.mem_cons.mp hx with hx | hx
        · subst hx; exact keyLe_of_keyLt _ _ hlt
        · exact hmin x hx
      · have hlt2 : keyLt m r = false := by
          cases hk : keyLt m r
          · rfl
          · exact absurd hk hlt
        rw [if_neg hlt] at h
        injection h with h
        subst h
        refine ⟨by simp, ?_⟩
        intro x hx
        rcases List.mem_cons.mp hx with hx | hx
        · subst hx; exact keyLe_refl _
        · exact keyLe_trans _ _ _ (keyLe_of_not_keyLt _ _ hlt2)
            (hmin x hx)

theorem upsertRecord_mem (rs : List Record) (r : Record) :
    r ∈ upsertRecord rs r := by
  unfold upsertRecord
  split
  · next h =>
    rw [List.any_eq_true] at h
    obtain ⟨x, hx, hxe⟩ := h
    rw [decide_eq_true_eq] at hxe
    exact List.mem_map.mpr ⟨x, hx, by rw [if_pos hxe]⟩
  · simp

theorem upsert_find : ∀ (entries : List PrefixEntry) (p : PrefixId)
    (r : Record),
    ∃ e2, findEntry (upsertEntries entries p r).1 p = some e2 ∧
      r ∈ e2.records ∧
      (e2.withdrawnMuis = [] ∨
        ∃ e ∈ entries, e.pfx = p ∧ e2.withdrawnMuis = e.withdrawnMuis) := by
  intro entries p r
  induction entries with
  | nil =>
    refine ⟨{ pfx := p, records := [r], withdrawnMuis := [] }, ?_, ?_, ?_⟩
    · simp [upsertEntries, findEntry]
    · simp
    · left; rfl
  | cons e es ih =>
    by_cases hp : e.pfx = p
    · refine ⟨{ e with records := upsertRecord e.records r }, ?_, ?_, ?_⟩
      · simp [upsertEntries, findEntry, hp]
      · exact upsertRecord_mem _ _
      · right; exact ⟨e, by simp, hp, rfl⟩
    · obtain ⟨e2, hf, hr, hw⟩ := ih
      refine ⟨e2, ?_, hr, ?_⟩
      · simpa [upsertEntries, findEntry, hp] using hf
      · rcases hw with hw | ⟨e3, he3, hpe, hwe⟩
        · exact Or.inl hw
        · exact Or.inr ⟨e3, List.mem_cons_of_mem _ he3, hpe, hwe⟩

theorem upsert_report_sound : ∀ (entries : List PrefixEntry)
    (p : PrefixId) (r : Record),
    (!(upsertEntries entries p r).2.prefix_new ||
      (upsertEntries entries p r).2.mui_new) = true := by
  intro entries p r
  induction entries with
  | nil => simp [upsertEntries]
  | cons e es ih =>
    by_cases hp : e.pfx = p
    · simp [upsertEntries, hp]
    · simpa [upsertEntries, hp] using ih

theorem findEntry_some : ∀ (es : List PrefixEntry) (p : PrefixId)
    (e : PrefixEntry),
    findEntry es p = some e → e ∈ es ∧ e.pfx = p := by
  intro es
  induction es with
  | nil => intro p e h; simp [findEntry] at h
  | cons a as ih =>
    intro p e h
    simp only [findEntry] at h
    by_cases hp : a.pfx = p
    · rw [if_pos hp] at h
      injection h with h
      subst h
      exact ⟨by simp, hp⟩
    · rw [if_neg hp] at h
      obtain ⟨h1, h2⟩ := ih p e h
      exact ⟨List.mem_cons_of_mem _ h1, h2⟩

theorem effectiveStatus_active_iff (g perW : List Nat) (r : Record) :
    effectiveStatus g perW r = RouteStatus.Active ↔
      (r.status = RouteStatus.Active ∧ r.multi_uniq_id ∉ perW ∧
        r.multi_uniq_id ∉ g) := by
  unfold effectiveStatus
  by_cases hc : (r.status = RouteStatus.Withdrawn ∨
      r.multi_uniq_id ∈ perW ∨ r.multi_uniq_id ∈ g)
  · rw [if_pos hc]
    constructor
    · intro h; simp at h
    · rintro ⟨h1, h2, h3⟩
      rcases hc with hc | hc | hc
      · rw [h1] at hc; simp at hc
      · exact absurd hc h2
      · exact absurd hc h3
  · rw [if_neg hc]
    push_neg at hc
    obtain ⟨h1, h2, h3⟩ := hc
    constructor
    · intro _
      refine ⟨?_, h2, h3⟩
      cases hst : r.status
      · rfl
      · exact absurd hst h1
    · intro _; rfl

theorem rewriteStatus_eq_self (g perW : List Nat) (r : Record)
    (h : effectiveStatus g perW r = RouteStatus.Active) :
    rewriteStatus g perW r = r := by
  have hs : r.status = RouteStatus.Active :=
    ((effectiveStatus_active_iff g perW r).mp h).1
  unfold rewriteStatus
  rw [h]
  cases r with
  | mk a b c d =>
    simp only at hs
    rw [hs]

theorem filterRecords_all (g perW : List Nat) (rs : List Record) :
    filterRecords none true g perW rs = rs.map (rewriteStatus g perW) := by
  unfold filterRecords
  rw [List.filter_eq_self.mpr]
  intro a _
  simp [muiMatches, keepRecord]

theorem getValue_memory (s : StarCastAfRib) (pfx : PrefixId)
    (mui : Option Nat) (iw : Bool)
    (h : s.persistStrategy ≠ PersistStrategy.PersistOnly) :
    getValue s pfx mui iw =
      Except.ok
        (getRecordsForPrefix s.entries s.withdrawnMuisBmin pfx mui iw) := by
  simp [getValue, h]

theorem collectSide_ok (s : StarCastAfRib) (mui : Option Nat) (iw : Bool)
    (h : s.persistStrategy ≠ PersistStrategy.PersistOnly) :
    ∀ l, ∃ l2, collectSide s mui iw l = Except.ok l2 := by
  intro l
  induction l with
  | nil => exact ⟨[], rfl⟩
  | cons pr ps ih =>
    obtain ⟨l2, hl2⟩ := ih
    simp only [collectSide, getValue_memory s pr.1 mui iw h]
    cases hopt : getRecordsForPrefix s.entries s.withdrawnMuisBmin pr.1
        mui iw with
    | none => exact ⟨l2, by simp [hl2]⟩
    | some v => exact ⟨(pr.1, v) :: l2, by simp [hl2, Except.map]⟩

theorem collectSide_error (s : StarCastAfRib) (mui : Option Nat)
    (iw : Bool) :
    ∀ (l : List (PrefixId × List Record)) (pr : PrefixId × List Record),
      pr ∈ l → getValue s pr.1 mui iw = Except.error FatalError.fatal →
      collectSide s mui iw l = Except.error FatalError.fatal := by
  intro l
  induction l with
  | nil => intro pr h; simp at h
  | cons hd ps ih =>
    intro pr hmem herr
    rcases List.mem_cons.mp hmem with hh | hh
    · subst hh
      simp only [collectSide, herr]
    · simp only [collectSide]
      cases hg : getValue s hd.1 mui iw with
      | error e => cases e; rfl
      | ok vo =>
        cases vo with
        | none => exact ih pr hh herr
        | some vv => rw [ih pr hh herr]; rfl

theorem sideOption_ok (s : StarCastAfRib) (mui : Option Nat) (iw : Bool)
    (flag : Bool) (cur : Option (List (PrefixId × List Record)))
    (h : s.persistStrategy ≠ PersistStrategy.PersistOnly) :
    ∃ out, sideOption s mui iw flag cur = Except.ok out := by
  unfold sideOption
  split
  · cases cur with
    | none => exact ⟨none, rfl⟩
    | some l =>
      obtain ⟨l2, hl2⟩ := collectSide_ok s mui iw h l
      exact ⟨some l2, by simp [hl2, Except.map]⟩
  · exact ⟨cur, rfl⟩

theorem applySides_ok (s : StarCastAfRib) (o : MatchOptions)
    (res : QueryResult)
    (h : s.persistStrategy ≠ PersistStrategy.PersistOnly) :
    ∃ ms ls, applySides s o res =
      Except.ok { res with more_specifics := ms, less_specifics := ls } := by
  obtain ⟨ms, hms⟩ := sideOption_ok s o.mui o.include_withdrawn
    o.include_more_specifics res.more_specifics h
  obtain ⟨ls, hls⟩ := sideOption_ok s o.mui o.include_withdrawn
    o.include_less_specifics res.less_specifics h
  exact ⟨ms, ls, by simp only [applySides, hms, hls]⟩

theorem applySides_fields (s : StarCastAfRib) (o : MatchOptions)
    (res res2 : QueryResult)
    (h : applySides s o res = Except.ok res2) :
    res2.match_type = res.match_type ∧ res2.pfx = res.pfx ∧
      res2.records = res.records := by
  unfold applySides at h
  cases h1 : sideOption s o.mui o.include_withdrawn
      o.include_more_specifics res.more_specifics with
  | error e => rw [h1] at h; simp at h
  | ok ms =>
    rw [h1] at h
    cases h2 : sideOption s o.mui o.include_withdrawn
        o.include_less_specifics res.less_specifics with
    | error e => rw [h2] at h; simp at h
    | ok ls =>
      rw [h2] at h
      simp only at h
      injection h with h
      subst h
      exact ⟨rfl, rfl, rfl⟩

theorem stepOne_sides (s : StarCastAfRib) (o : MatchOptions)
    (t : TreeQueryResult) :
    (stepOne s o t).more_specifics =
        (queryResultFromTree t).more_specifics ∧
      (stepOne s o t).less_specifics =
        (queryResultFromTree t).less_specifics := by
  unfold stepOne
  cases hp : t.pfx with
  | none => simp [hp]
  | some p =>
    cases hg : getValue s p o.mui o.include_withdrawn with
    | error e => simp [hp, hg]
    | ok vo =>
      cases vo with
      | none => simp [hp, hg]
      | some v =>
        simp only [hp, hg]
        split <;> simp

theorem treeMatch_exact (entries : List PrefixEntry) (q : PrefixId)
    (o : MatchOptions) (e : PrefixEntry)
    (h : findEntry entries q = some e) :
    (treeMatchPrefix entries q o).match_type = MatchType.ExactMatch ∧
      (treeMatchPrefix entries q o).pfx = some q := by
  unfold treeMatchPrefix
  rw [h]
  simp

theorem findRecord_unique : ∀ (rs : List Record) (b : Record),
    muiUnique rs → b ∈ rs → findRecord rs b.multi_uniq_id = some b := by
  intro rs
  induction rs with
  | nil => intro b _ h; simp at h
  | cons r rs2 ih =>
    intro b hu hb
    simp only [findRecord]
    by_cases hm : r.multi_uniq_id = b.multi_uniq_id
    · rw [if_pos hm, hu r (by simp) b hb hm]
    · rw [if_neg hm]
      rcases List.mem_cons.mp hb with hb | hb
      · subst hb; exact absurd rfl hm
      · exact ih b
          (fun r1 h1 r2 h2 =>
            hu r1 (List.mem_cons_of_mem _ h1) r2
              (List.mem_cons_of_mem _ h2)) hb

theorem visibleActive_sub (g : List Nat) (e : PrefixEntry) (r : Record)
    (h : r ∈ visibleActive g e) :
    r ∈ e.records ∧
      effectiveStatus g e.withdrawnMuis r = RouteStatus.Active := by
  unfold visibleActive at h
  rw [List.mem_filter] at h
  exact ⟨h.1, by simpa using h.2⟩

theorem treeMatch_sides (entries : List PrefixEntry) (q : PrefixId)
    (o : MatchOptions) :
    (treeMatchPrefix entries q o).less_specifics =
        (if o.include_less_specifics then some (lessSpecificKeys entries q)
          else none) ∧
      (treeMatchPrefix entries q o).more_specifics =
        (if o.include_more_specifics then some (moreSpecificKeys entries q)
          else none) := by
  unfold treeMatchPrefix
  exact ⟨rfl, rfl⟩

theorem bestAndBackup_fst (g : List Nat) (e : PrefixEntry) :
    (bestAndBackup g e).1 =
      (minRecord (visibleActive g e)).map (fun r => r.multi_uniq_id) := by
  unfold bestAndBackup
  cases hm : minRecord (visibleActive g e) <;> simp [hm]

/-- C10: when `more_specifics_iter_from` is called for a specific MUI
with `include_withdrawn = false` and that MUI is globally withdrawn, the
iterator is empty, whatever records the store holds under any
more-specific prefix. -/
theorem claim_C10 (s : StarCastAfRib) (pfxId : PrefixId) (m : Nat)
    (h : muiIsWithdrawn s m = true) :
    moreSpecificsIterFrom s pfxId (some m) false = [] := by
  simp [moreSpecificsIterFrom, h]

/-- Witness for C10 at the store of scenario S3, whose MUI 1 is globally
withdrawn. -/
theorem claim_C10_witness :
    moreSpecificsIterFrom c4store p16 (some 1) false = [] :=
  claim_C10 c4store p16 1 (by decide)

/-- C8: an upsert report never combines `prefix_new = true` with
`mui_new = false`, so the panicking arm of `counter_update` in
`load_mrt.rs` is unreachable for reports produced by an upsert. -/
theorem claim_C8 (entries : List PrefixEntry) (p : PrefixId) (r : Record)
    (c : UpsertCounters) :
    (!(upsertEntries entries p r).2.prefix_new ||
        (upsertEntries entries p r).2.mui_new) = true ∧
      (counterUpdate c (upsertEntries entries p r).2).isSome = true := by
  refine ⟨upsert_report_sound entries p r, ?_⟩
  have h := upsert_report_sound entries p r
  cases hpn : (upsertEntries entries p r).2.prefix_new with
  | false =>
    cases hmn : (upsertEntries entries p r).2.mui_new with
    | false => simp [counterUpdate, hpn, hmn]
    | true => simp [counterUpdate, hpn, hmn]
  | true =>
    cases hmn : (upsertEntries entries p r).2.mui_new with
    | false => rw [hpn, hmn] at h; simp at h
    | true => simp [counterUpdate, hpn, hmn]

/-- Counterexample for C6 as stated: the stride sequence `[8]` sums to 8,
not to the IPv4 bit width 32, yet construction does not reject it: the
sequence is repeated to `[8, 8, 8, 8]` and yields a store, exactly as
`TreeBitMap::new(vec![8])` does in `tests/more-more-specifics.rs`. -/
theorem claim_C6_cex :
    List.sum [8] ≠ afBits ∧
      treeBitmapNew [8] afBits = some [8, 8, 8, 8] := by
  exact ⟨by decide, by rfl⟩

/-- C6 (amended): a stride sequence whose sum falls short of the address
family bit width is not rejected; it is repeated cyclically, and every
sequence the construction accepts is expanded to strides summing exactly
to the bit width. -/
theorem claim_C6 :
    (∀ (strides expanded : List Nat),
        treeBitmapNew strides afBits = some expanded →
          expanded.sum = afBits) ∧
      treeBitmapNew [8] afBits = some [8, 8, 8, 8] := by
  constructor
  · intro strides expanded h
    simp only [treeBitmapNew] at h
    split at h
    case isTrue hc =>
      injection h with h
      subst h
      exact hc
    case isFalse hc => simp at h
  · rfl

/-- Witness for C6: applying the amended theorem to the accepted
sequence `[8]` yields the expanded strides summing to 32. -/
theorem claim_C6_witness : List.sum [8, 8, 8, 8] = afBits :=
  claim_C6.1 [8] [8, 8, 8, 8] (by rfl)

/-- C2 evaluated at the failing input: in a store holding `1.0.0.0/16`
with record `recA` and `1.0.0.0/17` with record `recB`,
`more_specifics_from 1.0.0.0/16` attaches `recA` — the record list of the
SEARCH prefix — to the side prefix `1.0.0.0/17`, although the records
stored under `1.0.0.0/17` are `[recB]` and `recA ≠ recB`. -/
theorem claim_C2_eval :
    moreSpecificsFrom c2store p16 none true =
        Except.ok
          { match_type := MatchType.EmptyMatch
            pfx := none
            records := [recA]
            less_specifics := none
            more_specifics := some [(p17, [recA])] } ∧
      findEntry c2store.entries p17 =
        some { pfx := p17, records := [recB], withdrawnMuis := [] } ∧
      recA ≠ recB := by
  exact ⟨by rfl, by rfl, by decide⟩

/-- C7: after inserting the fourteen test prefixes, the exact-match query
for `17.0.0.0/9` with more specifics matches `17.0.0.0/9` and returns
exactly the twelve inserted prefixes longer than /9 — all inserted
prefixes except `17.0.0.0/8` and the /9 itself. -/
theorem claim_C7 :
    matchPrefix c7store (mkPfx 17 0 0 0 9) c7opts =
        Except.ok
          { match_type := MatchType.ExactMatch
            pfx := some (mkPfx 17 0 0 0 9)
            records := [rec666]
            less_specifics := none
            more_specifics :=
              some (c7expected.map (fun p => (p, [rec666]))) } ∧
      c7expected =
        c7pfxs.filter
          (fun p => covers (mkPfx 17 0 0 0 9) p && decide (9 < p.len)) ∧
      c7expected.length = 12 ∧
      mkPfx 17 0 0 0 8 ∉ c7expected ∧
      mkPfx 17 0 0 0 9 ∉ c7expected := by
  refine ⟨by rfl, by rfl, by rfl, by decide, by decide⟩

/-- C3: in `match_prefix`, when fetching the matched prefix's records
with the query's MUI and withdrawal options leaves at least one record,
the result keeps the trie walk's match type and prefix and carries those
records; when the fetch yields nothing or an empty list, the result's
match type is `EmptyMatch` and its prefix is cleared. -/
theorem claim_C3 (s : StarCastAfRib) (q : PrefixId) (o : MatchOptions)
    (p : PrefixId) (ht : (treeMatchPrefix s.entries q o).pfx = some p) :
    (∀ (v : List Record) (res : QueryResult),
        getValue s p o.mui o.include_withdrawn = Except.ok (some v) →
        v ≠ [] → matchPrefix s q o = Except.ok res →
        res.match_type = (treeMatchPrefix s.entries q o).match_type ∧
          res.pfx = some p ∧ res.records = v) ∧
    (∀ res : QueryResult,
        (getValue s p o.mui o.include_withdrawn = Except.ok none ∨
          getValue s p o.mui o.include_withdrawn =
            Except.ok (some [])) →
        matchPrefix s q o = Except.ok res →
        res.match_type = MatchType.EmptyMatch ∧ res.pfx = none) := by
  constructor
  · intro v res hg hne hm
    have hie : v.isEmpty = false := by
      cases v with
      | nil => exact absurd rfl hne
      | cons a as => rfl
    have hstep : stepOne s o (treeMatchPrefix s.entries q o) =
        { queryResultFromTree (treeMatchPrefix s.entries q o) with
          records := v } := by
      unfold stepOne
      rw [ht]
      simp only [hg, hie]
      rfl
    unfold matchPrefix at hm
    rw [hstep] at hm
    obtain ⟨h1, h2, h3⟩ := applySides_fields _ _ _ _ hm
    refine ⟨?_, ?_, h3⟩
    · rw [h1]; rfl
    · rw [h2]; exact ht
  · intro res hgv hm
    have hstep : stepOne s o (treeMatchPrefix s.entries q o) =
        { queryResultFromTree (treeMatchPrefix s.entries q o) with
          pfx := none, match_type := MatchType.EmptyMatch } := by
      unfold stepOne
      rw [ht]
      rcases hgv with hgv | hgv
      · simp only [hgv]
      · simp only [hgv, List.isEmpty_nil, if_pos]
    unfold matchPrefix at hm
    rw [hstep] at hm
    obtain ⟨h1, h2, _⟩ := applySides_fields _ _ _ _ hm
    exact ⟨by rw [h1], by rw [h2]⟩

/-- Witness for C3: on `c2store` the exact fetch for `1.0.0.0/16` keeps
the match; on `c3store` (all records of the prefix withdrawn) the match
is downgraded to `EmptyMatch` with a cleared prefix. -/
theorem claim_C3_witness :
    (({ match_type := MatchType.ExactMatch, pfx := some p16
        records := [recA], less_specifics := none
        more_specifics := none } : QueryResult).match_type =
          (treeMatchPrefix c2store.entries p16 lpmF).match_type ∧
      ({ match_type := MatchType.ExactMatch, pfx := some p16
         records := [recA], less_specifics := none
         more_specifics := none } : QueryResult).pfx = some p16 ∧
      ({ match_type := MatchType.ExactMatch, pfx := some p16
         records := [recA], less_specifics := none
         more_specifics := none } : QueryResult).records = [recA]) ∧
    (({ match_type := MatchType.EmptyMatch, pfx := none, records := []
        less_specifics := none
        more_specifics := none } : QueryResult).match_type =
          MatchType.EmptyMatch ∧
      ({ match_type := MatchType.EmptyMatch, pfx := none, records := []
         less_specifics := none
         more_specifics := none } : QueryResult).pfx = none) :=
  ⟨(claim_C3 c2store p16 lpmF p16 rfl).1 [recA]
      { match_type := MatchType.ExactMatch, pfx := some p16
        records := [recA], less_specifics := none
        more_specifics := none } rfl (by decide) rfl,
    (claim_C3 c3store p16 lpmF p16 rfl).2
      { match_type := MatchType.EmptyMatch, pfx := none, records := []
        less_specifics := none, more_specifics := none }
      (Or.inl rfl) rfl⟩

/-- C9: a fatal error while fetching the matched prefix's own records is
not propagated — `match_prefix` returns `Ok` with `EmptyMatch` and a
cleared prefix, indistinguishable from a miss — while a fatal error while
fetching a more-specific or less-specific side prefix is propagated as
`Err`. -/
theorem claim_C9 (s : StarCastAfRib) (q : PrefixId) (o : MatchOptions) :
    (∀ p : PrefixId,
        o.include_more_specifics = false →
        o.include_less_specifics = false →
        (treeMatchPrefix s.entries q o).pfx = some p →
        getValue s p o.mui o.include_withdrawn =
          Except.error FatalError.fatal →
        matchPrefix s q o =
          Except.ok
            { match_type := MatchType.EmptyMatch, pfx := none
              records := [], less_specifics := none
              more_specifics := none }) ∧
    (∀ p2 : PrefixId,
        o.include_more_specifics = true →
        p2 ∈ moreSpecificKeys s.entries q →
        getValue s p2 o.mui o.include_withdrawn =
          Except.error FatalError.fatal →
        matchPrefix s q o = Except.error FatalError.fatal) ∧
    (∀ p3 : PrefixId,
        o.include_less_specifics = true →
        p3 ∈ lessSpecificKeys s.entries q →
        getValue s p3 o.mui o.include_withdrawn =
          Except.error FatalError.fatal →
        matchPrefix s q o = Except.error FatalError.fatal) := by
  refine ⟨?_, ?_, ?_⟩
  · intro p hms hls ht herr
    have h1 : (treeMatchPrefix s.entries q o).less_specifics = none := by
      rw [(treeMatch_sides s.entries q o).1, hls]
      rfl
    have h2 : (treeMatchPrefix s.entries q o).more_specifics = none := by
      rw [(treeMatch_sides s.entries q o).2, hms]
      rfl
    have hstep : stepOne s o (treeMatchPrefix s.entries q o) =
        { match_type := MatchType.EmptyMatch, pfx := none, records := []
          less_specifics := none, more_specifics := none } := by
      unfold stepOne
      rw [ht]
      simp only [herr]
      unfold queryResultFromTree
      rw [h1, h2]
      rfl
    unfold matchPrefix
    rw [hstep]
    unfold applySides sideOption
    rw [hms, hls]
    rfl
  · intro p2 hms hmem herr
    have hside : (stepOne s o
          (treeMatchPrefix s.entries q o)).more_specifics =
        some ((moreSpecificKeys s.entries q).map
          (fun p => (p, ([] : List Record)))) := by
      rw [(stepOne_sides s o _).1]
      unfold queryResultFromTree
      rw [(treeMatch_sides s.entries q o).2, hms]
      rfl
    have hcoll : collectSide s o.mui o.include_withdrawn
        ((moreSpecificKeys s.entries q).map
          (fun p => (p, ([] : List Record)))) =
        Except.error FatalError.fatal :=
      collectSide_error s o.mui o.include_withdrawn _ (p2, [])
        (List.mem_map.mpr ⟨p2, hmem, rfl⟩) herr
    have hso : sideOption s o.mui o.include_withdrawn
        o.include_more_specifics
        (stepOne s o (treeMatchPrefix s.entries q o)).more_specifics =
        Except.error FatalError.fatal := by
      rw [hside]
      unfold sideOption
      rw [hms]
      simp [hcoll, Except.map]
    unfold matchPrefix applySides
    rw [hso]
  · intro p3 hls hmem herr
    have hside : (stepOne s o
          (treeMatchPrefix s.entries q o)).less_specifics =
        some ((lessSpecificKeys s.entries q).map
          (fun p => (p, ([] : List Record)))) := by
      rw [(stepOne_sides s o _).2]
      unfold queryResultFromTree
      rw [(treeMatch_sides s.entries q o).1, hls]
      rfl
    have hcoll : collectSide s o.mui o.include_withdrawn
        ((lessSpecificKeys s.entries q).map
          (fun p => (p, ([] : List Record)))) =
        Except.error FatalError.fatal :=
      collectSide_error s o.mui o.include_withdrawn _ (p3, [])
        (List.mem_map.mpr ⟨p3, hmem, rfl⟩) herr
    have hso2 : sideOption s o.mui o.include_withdrawn
        o.include_less_specifics
        (stepOne s o (treeMatchPrefix s.entries q o)).less_specifics =
        Except.error FatalError.fatal := by
      rw [hside]
      unfold sideOption
      rw [hls]
      simp [hcoll, Except.map]
    unfold matchPrefix applySides
    cases hso1 : sideOption s o.mui o.include_withdrawn
        o.include_more_specifics
        (stepOne s o (treeMatchPrefix s.entries q o)).more_specifics with
    | error e => cases e; simp only [hso1]
    | ok ms => simp only [hso1, hso2]

/-- Witness for C9: on the persist-only store with an undecodable blob
for the matched prefix the query still returns `Ok` with `EmptyMatch`;
with an undecodable blob under a more-specific prefix and more specifics
requested the query returns `Err`. -/
theorem claim_C9_witness :
    matchPrefix c9store p16 c9opts =
        Except.ok
          { match_type := MatchType.EmptyMatch, pfx := none
            records := [], less_specifics := none
            more_specifics := none } ∧
      matchPrefix c9store2 p16 c9optsMs =
        Except.error FatalError.fatal :=
  ⟨(claim_C9 c9store p16 c9opts).1 p16 rfl rfl rfl rfl,
    (claim_C9 c9store2 p16 c9optsMs).2.1 p17 rfl (by decide) rfl⟩

/-- C4: with `include_withdrawn = false` no returned record is withdrawn
by any of the three layers (its stored status, the per-prefix withdrawn
set, the global withdrawn set); with `include_withdrawn = true` the full
record set of the entry is returned with statuses rewritten.  In the
scenario S3 store (MUIs 1 to 5 under `1.0.0.0/16`, MUI 1 globally
withdrawn) the LPM query including withdrawn records yields 5 records of
which exactly the one of MUI 1 is withdrawn, and excluding them yields
4. -/
theorem claim_C4 :
    (∀ (s : StarCastAfRib) (pfx : PrefixId) (mui : Option Nat)
        (v : List Record) (r : Record),
        s.persistStrategy ≠ PersistStrategy.PersistOnly →
        getValue s pfx mui false = Except.ok (some v) →
        r ∈ v →
        r.status = RouteStatus.Active ∧
          ∃ e r0, findEntry s.entries pfx = some e ∧ r0 ∈ e.records ∧
            r0.multi_uniq_id = r.multi_uniq_id ∧
            r0.status = RouteStatus.Active ∧
            r.multi_uniq_id ∉ e.withdrawnMuis ∧
            r.multi_uniq_id ∉ s.withdrawnMuisBmin) ∧
    (∀ (s : StarCastAfRib) (pfx : PrefixId) (e : PrefixEntry),
        s.persistStrategy ≠ PersistStrategy.PersistOnly →
        findEntry s.entries pfx = some e → e.records ≠ [] →
        getValue s pfx none true =
          Except.ok (some (e.records.map
            (rewriteStatus s.withdrawnMuisBmin e.withdrawnMuis)))) ∧
    (matchPrefix c4store p16 lpmT = Except.ok c4resT ∧
      c4resT.records.length = 5 ∧
      (c4resT.records.filter
        (fun r => decide (r.status = RouteStatus.Withdrawn))).length
        = 1 ∧
      (c4resT.records.filter
        (fun r => decide (r.status = RouteStatus.Withdrawn))).all
        (fun r => decide (r.multi_uniq_id = 1)) = true ∧
      matchPrefix c4store p16 lpmF = Except.ok c4resF ∧
      c4resF.records.length = 4 ∧
      c4resF.records.all
        (fun r => decide (r.status = RouteStatus.Active)) = true) := by
  refine ⟨?_, ?_, ?_⟩
  · intro s pfx mui v r hps hg hr
    rw [getValue_memory s pfx mui false hps] at hg
    injection hg with hg
    unfold getRecordsForPrefix at hg
    cases hf : findEntry s.entries pfx with
    | none => rw [hf] at hg; simp at hg
    | some e =>
      simp only [hf] at hg
      split at hg
      · simp at hg
      · injection hg with hg
        subst hg
        unfold filterRecords at hr
        rw [List.mem_filter] at hr
        obtain ⟨hmem, hpred⟩ := hr
        rw [List.mem_map] at hmem
        obtain ⟨r0, hr0, hrw⟩ := hmem
        rw [Bool.and_eq_true] at hpred
        have hact : r.status = RouteStatus.Active := by
          have h2 := hpred.2
          unfold keepRecord at h2
          simpa using h2
        have heff : effectiveStatus s.withdrawnMuisBmin e.withdrawnMuis
            r0 = RouteStatus.Active := by
          rw [← hrw] at hact
          unfold rewriteStatus at hact
          simpa using hact
        obtain ⟨h1, h2, h3⟩ :=
          (effectiveStatus_active_iff _ _ _).mp heff
        have hmui : r.multi_uniq_id = r0.multi_uniq_id := by
          rw [← hrw]; rfl
        refine ⟨hact, e, r0, rfl, hr0, hmui.symm, h1, ?_, ?_⟩
        · rw [hmui]; exact h2
        · rw [hmui]; exact h3
  · intro s pfx e hps hf hne
    rw [getValue_memory s pfx none true hps]
    unfold getRecordsForPrefix
    simp only [hf]
    rw [filterRecords_all]
    have hie : (e.records.map
        (rewriteStatus s.withdrawnMuisBmin e.withdrawnMuis)).isEmpty
        = false := by
      cases hrs : e.records with
      | nil => exact absurd hrs hne
      | cons a as => rfl
    rw [hie]
    rfl
  · exact ⟨by rfl, by rfl, by rfl, by rfl, by rfl, by rfl, by rfl⟩

/-- Witness for C4 on the scenario S3 store: the MUI 2 record returned
without withdrawn records is active in all three layers, and the
full-set fetch returns all five records with rewritten statuses. -/
theorem claim_C4_witness :
    ((rec4 2).status = RouteStatus.Active ∧
      ∃ e r0, findEntry c4store.entries p16 = some e ∧ r0 ∈ e.records ∧
        r0.multi_uniq_id = (rec4 2).multi_uniq_id ∧
        r0.status = RouteStatus.Active ∧
        (rec4 2).multi_uniq_id ∉ e.withdrawnMuis ∧
        (rec4 2).multi_uniq_id ∉ c4store.withdrawnMuisBmin) ∧
    getValue c4store p16 none true =
      Except.ok (some (c4entry.records.map
        (rewriteStatus c4store.withdrawnMuisBmin
          c4entry.withdrawnMuis))) :=
  ⟨claim_C4.1 c4store p16 none c4resF.records (rec4 2) (by decide) rfl
      (by decide),
    claim_C4.2.1 c4store p16 c4entry (by decide) rfl (by decide)⟩

/-- C5: the best path of a prefix is the minimum, by orderable metadata
with ties broken by MUI ascending, among the visible-active records of
the prefix; the selection is `none` exactly when no visible-active
record exists, in which case a best-path query on a stored prefix yields
the error `BestPathNotFound` (and `none` when the prefix has no entry at
all). -/
theorem claim_C5 (s : StarCastAfRib) (pfx : PrefixId) :
    (findEntry s.entries pfx = none → bestPath s pfx = none) ∧
    (∀ e, findEntry s.entries pfx = some e →
      (((bestAndBackup s.withdrawnMuisBmin e).1 = none ↔
          visibleActive s.withdrawnMuisBmin e = []) ∧
        (∀ m, (bestAndBackup s.withdrawnMuisBmin e).1 = some m →
          ∃ b, b ∈ visibleActive s.withdrawnMuisBmin e ∧
            b.multi_uniq_id = m ∧
            ∀ r ∈ visibleActive s.withdrawnMuisBmin e,
              keyLe b r = true) ∧
        (visibleActive s.withdrawnMuisBmin e = [] →
          bestPath s pfx =
            some (Except.error PrefixStoreError.BestPathNotFound)) ∧
        (muiUnique e.records →
          ∀ b, minRecord (visibleActive s.withdrawnMuisBmin e) = some b →
            bestPath s pfx = some (Except.ok b)))) := by
  constructor
  · intro h
    simp [bestPath, h]
  · intro e hf
    refine ⟨?_, ?_, ?_, ?_⟩
    · rw [bestAndBackup_fst]
      cases hm : minRecord (visibleActive s.withdrawnMuisBmin e) with
      | none =>
        simp only [Option.map_none']
        constructor
        · intro _
          cases hva : visibleActive s.withdrawnMuisBmin e with
          | nil => rfl
          | cons a as =>
            rw [hva] at hm
            exact absurd hm (minRecord_ne_none a as)
        · intro _; trivial
      | some b =>
        simp only [Option.map_some']
        constructor
        · intro h; exact absurd h (by simp)
        · intro hva
          rw [hva] at hm
          simp [minRecord] at hm
    · intro m hm
      rw [bestAndBackup_fst] at hm
      cases hmr : minRecord (visibleActive s.withdrawnMuisBmin e) with
      | none => rw [hmr] at hm; simp at hm
      | some b =>
        rw [hmr] at hm
        simp only [Option.map_some'] at hm
        injection hm with hm
        obtain ⟨hmem, hmin⟩ := minRecord_spec _ _ hmr
        exact ⟨b, hmem, hm, hmin⟩
    · intro hva
      unfold bestPath
      rw [hf]
      simp only [Option.map_some']
      rw [bestAndBackup_fst, hva]
      simp [minRecord]
    · intro hu b hmr
      unfold bestPath
      rw [hf]
      simp only [Option.map_some']
      rw [bestAndBackup_fst, hmr]
      simp only [Option.map_some']
      obtain ⟨hmem, _⟩ := minRecord_spec _ _ hmr
      obtain ⟨hrecs, heff⟩ := visibleActive_sub _ _ _ hmem
      have hfr : findRecord e.records b.multi_uniq_id = some b :=
        findRecord_unique e.records b hu hrecs
      unfold getRecordForMui
      rw [hfr]
      simp [heff, rewriteStatus_eq_self _ _ _ heff]

/-- Witness for C5 on the entry `c5e`: the best path is the MUI 3 record
with the smallest metadata. -/
theorem claim_C5_witness :
    bestPath c5store p16 = some (Except.ok c5best) :=
  ((claim_C5 c5store p16).2 c5e rfl).2.2.2
    (by unfold muiUnique; decide) c5best rfl

/-- C1: for every prefix inserted with a record, a subsequent
`match_prefix` query for that prefix with `LongestMatch` options returns
a result whose prefix equals the inserted prefix with match type
`ExactMatch` (the queried length matches exactly), and whose records
contain the inserted record (stated for a memory-only store and a
record no withdrawal layer suppresses). -/
theorem claim_C1 (s : StarCastAfRib) (P : PrefixId) (r : Record)
    (o : MatchOptions)
    (hps : s.persistStrategy = PersistStrategy.MemoryOnly)
    (hmt : o.match_type = MatchType.LongestMatch)
    (hmui : o.mui = none)
    (hiw : o.include_withdrawn = true)
    (hact : r.status = RouteStatus.Active)
    (hg : r.multi_uniq_id ∉ s.withdrawnMuisBmin)
    (hperw : ∀ e ∈ s.entries, e.pfx = P →
      r.multi_uniq_id ∉ e.withdrawnMuis) :
    ∃ res, matchPrefix (insert s P r).1 P o = Except.ok res ∧
      res.match_type = MatchType.ExactMatch ∧ res.pfx = some P ∧
      r ∈ res.records := by
  obtain ⟨e2, hfind, hrmem, hw⟩ := upsert_find s.entries P r
  have hps2 : (insert s P r).1.persistStrategy ≠
      PersistStrategy.PersistOnly := by
    have he : (insert s P r).1.persistStrategy = s.persistStrategy := rfl
    rw [he, hps]
    simp
  have hwd : (insert s P r).1.withdrawnMuisBmin =
      s.withdrawnMuisBmin := rfl
  have hperw2 : r.multi_uniq_id ∉ e2.withdrawnMuis := by
    rcases hw with hw | ⟨e3, he3, hpe, hwe⟩
    · rw [hw]; simp
    · rw [hwe]; exact hperw e3 he3 hpe
  have heff : effectiveStatus s.withdrawnMuisBmin e2.withdrawnMuis r =
      RouteStatus.Active :=
    (effectiveStatus_active_iff _ _ _).mpr ⟨hact, hperw2, hg⟩
  have hfind2 : findEntry (insert s P r).1.entries P = some e2 := hfind
  have hie : (e2.records.map
      (rewriteStatus s.withdrawnMuisBmin e2.withdrawnMuis)).isEmpty
      = false := by
    cases hrs : e2.records with
    | nil => rw [hrs] at hrmem; simp at hrmem
    | cons a as => rfl
  have hgv : getValue (insert s P r).1 P o.mui o.include_withdrawn =
      Except.ok (some (e2.records.map
        (rewriteStatus s.withdrawnMuisBmin e2.withdrawnMuis))) := by
    rw [hmui, hiw, getValue_memory (insert s P r).1 P none true hps2]
    unfold getRecordsForPrefix
    simp only [hfind2]
    rw [hwd, filterRecords_all, hie]
    rfl
  obtain ⟨hmtE, hpfxE⟩ :=
    treeMatch_exact (insert s P r).1.entries P o e2 hfind2
  have hstep : stepOne (insert s P r).1 o
      (treeMatchPrefix (insert s P r).1.entries P o) =
      { queryResultFromTree
          (treeMatchPrefix (insert s P r).1.entries P o) with
        records := e2.records.map
          (rewriteStatus s.withdrawnMuisBmin e2.withdrawnMuis) } := by
    unfold stepOne
    rw [hpfxE]
    simp only [hgv, hie]
    rfl
  obtain ⟨ms, ls, happ⟩ := applySides_ok (insert s P r).1 o
    ({ queryResultFromTree
        (treeMatchPrefix (insert s P r).1.entries P o) with
      records := e2.records.map
        (rewriteStatus s.withdrawnMuisBmin e2.withdrawnMuis) }) hps2
  refine ⟨{ queryResultFromTree
        (treeMatchPrefix (insert s P r).1.entries P o) with
      records := e2.records.map
        (rewriteStatus s.withdrawnMuisBmin e2.withdrawnMuis)
      more_specifics := ms
      less_specifics := ls }, ?_, ?_, ?_, ?_⟩
  · unfold matchPrefix
    rw [hstep]
    exact happ
  · exact hmtE
  · exact hpfxE
  · exact List.mem_map.mpr ⟨r, hrmem, rewriteStatus_eq_self _ _ _ heff⟩

/-- Witness for C1: inserting `recA` under `1.0.0.0/16` into the empty
store and querying it back. -/
theorem claim_C1_witness :
    ∃ res, matchPrefix (insert emptyRib p16 recA).1 p16 lpmT =
      Except.ok res ∧
      res.match_type = MatchType.ExactMatch ∧ res.pfx = some p16 ∧
      recA ∈ res.records :=
  claim_C1 emptyRib p16 recA lpmT rfl rfl rfl rfl rfl (by decide)
    (by simp [emptyRib])

end RotondaStore
